import Mathlib

/-!
Verification development for the dapple dependency installer
(`src/lib/dependency.js`).  The JavaScript class `Dependency` is embedded
shallowly: strings are Lean `String`s (lists of characters), the regular
expressions used by the source are translated into explicit character-list
matchers with the exact JavaScript semantics they have on the source's
patterns, and every effectful operation (filesystem, child processes, IPFS
network calls) is modelled by an oracle `World` together with an explicit
trace of events.  Case-insensitive matching is modelled over ASCII letters,
which is what all the source's patterns use.
-/

deriving instance DecidableEq for Except

/-! ## Character helpers (JavaScript regex character classes) -/

/-- ASCII lower-casing, as JavaScript's case-insensitive flag folds the
ASCII letters used by the source's patterns. -/
def jsLower (c : Char) : Char :=
  if 'A' ≤ c ∧ c ≤ 'Z' then Char.ofNat (c.toNat + 32) else c

/-- The class appearing as a version in the git form and after the hash
marker in the IPFS form: ASCII letters and digits. -/
def isAlnumCh (c : Char) : Bool :=
  (decide ('a' ≤ c) && decide (c ≤ 'z')) ||
  (decide ('A' ≤ c) && decide (c ≤ 'Z')) ||
  (decide ('0' ≤ c) && decide (c ≤ '9'))

/-- Case-insensitive hexadecimal digit, for the commit-hash check. -/
def isHexCh (c : Char) : Bool :=
  (decide ('0' ≤ c) && decide (c ≤ '9')) ||
  (decide ('a' ≤ c) && decide (c ≤ 'f')) ||
  (decide ('A' ≤ c) && decide (c ≤ 'F'))

/-- Characters matched by an unflagged JavaScript dot: everything except
the four line terminators. -/
def jsDotCh (c : Char) : Bool :=
  !(c == '\n') && !(c == '\r') && !(c == '\u2028') && !(c == '\u2029')

/-! ## Regex matchers from the source

The git form is the anchored pattern "any char(s), any char, g i t, at
sign, alnum(s)" tested and executed case-insensitively.  Because the
version group admits no at sign, the (greedy) match splits the string at
its last at sign. -/

/-- Split a character list at its last at sign: the prefix before it and
the suffix after it. -/
def lastAtSplit : List Char → Option (List Char × List Char)
  | [] => none
  | c :: rest =>
    match lastAtSplit rest with
    | some (p, v) => some (c :: p, v)
    | none => if c == '@' then some ([], rest) else none

/-- Split a character list at its first at sign. -/
def firstAtSplit : List Char → Option (List Char × List Char)
  | [] => none
  | c :: rest =>
    if c == '@' then some ([], rest)
    else
      match firstAtSplit rest with
      | some (p, v) => some (c :: p, v)
      | none => none

/-- The prefix group of the git form: at least five characters, none a
line terminator, ending in g i t case-insensitively (the character before
those three is unconstrained, since the source's pattern uses an
unescaped dot there). -/
def gitPrefixOk (p : List Char) : Bool :=
  decide (5 ≤ p.length) && p.all jsDotCh &&
  (match p.reverse with
   | c1 :: c2 :: c3 :: _ =>
     (jsLower c1 == 't') && (jsLower c2 == 'i') && (jsLower c3 == 'g')
   | _ => false)

/-- Execution of the git-form pattern: succeeds exactly when the string
splits at its last at sign into a valid prefix group and a nonempty
alphanumeric version group. -/
def gitFormExec (cs : List Char) : Option (List Char × List Char) :=
  match lastAtSplit cs with
  | some (p, v) =>
    if (!v.isEmpty) && v.all isAlnumCh && gitPrefixOk p then some (p, v) else none
  | none => none

/-- Execution of the permissive generic pattern: an optional nonempty
group of characters other than at sign and hash mark, then an optional at
sign followed by an optional group of non-line-terminator characters.
Returns `none` exactly when the anchored pattern fails to match (the
JavaScript `exec` returns `null`): when the string contains a hash mark
before any at sign, or a line terminator after the first at sign. -/
def pathRegexExec (cs : List Char) :
    Option (Option (List Char) × Option (List Char)) :=
  match firstAtSplit cs with
  | none =>
    if cs.isEmpty then some (none, none)
    else if cs.all (fun c => !(c == '#')) then some (some cs, none)
    else none
  | some (p, v) =>
    if p.all (fun c => !(c == '#')) then
      let pOpt := if p.isEmpty then none else some p
      if v.isEmpty then some (pOpt, none)
      else if v.all jsDotCh then some (pOpt, some v)
      else none
    else none

/-- Does the list start with the scheme i p f s colon slash slash,
case-insensitively on the letters? -/
def startsWithIpfsCI : List Char → Bool
  | a :: b :: c :: d :: e :: f :: g :: _ =>
    (jsLower a == 'i') && (jsLower b == 'p') && (jsLower c == 'f') &&
    (jsLower d == 's') && (e == ':') && (f == '/') && (g == '/')
  | _ => false

/-- The IPFS content-hash test: an optional at sign, an optional scheme,
then Q m (case-insensitively) followed by at least one alphanumeric
character, anchored at both ends. -/
def ipfsShape (cs : List Char) : Bool :=
  let cs1 := match cs with | '@' :: r => r | _ => cs
  let cs2 := if startsWithIpfsCI cs1 then cs1.drop 7 else cs1
  match cs2 with
  | q :: m :: rest =>
    (jsLower q == 'q') && (jsLower m == 'm') && (!rest.isEmpty) && rest.all isAlnumCh
  | _ => false

/-- The replacement stripping a leading optional at sign plus scheme: it
removes them only when the scheme is actually present. -/
def stripAtIpfs (cs : List Char) : List Char :=
  match cs with
  | '@' :: r => if startsWithIpfsCI r then r.drop 7 else cs
  | _ => if startsWithIpfsCI cs then cs.drop 7 else cs

/-- The replacement stripping a leading scheme (no at sign), used when
computing the root hash before an IPFS pull. -/
def stripIpfsScheme (cs : List Char) : List Char :=
  if startsWithIpfsCI cs then cs.drop 7 else cs

/-- Strip a single leading at sign, as the git pull does on the version. -/
def stripLeadingAt (cs : List Char) : List Char :=
  match cs with
  | '@' :: r => r
  | _ => cs

/-- Nonempty, all case-insensitive hexadecimal: the commit-hash pattern. -/
def isHexStr (cs : List Char) : Bool :=
  (!cs.isEmpty) && cs.all isHexCh

/-! ## The descriptor -/

/-- Errors arising at parse/construction time.  `missingVersion` is the
construction-time throw for a git path without a version; `typeError` is
the unclassified crash that occurs when the generic pattern fails to
match and the source dereferences the null result of `exec`. -/
inductive DepErr where
  | missingVersion
  | typeError
deriving DecidableEq

/-- The `Dependency` object's fields after construction.  `installedAt`
is a path, modelled as a list of segments, empty until an install
succeeds (the source initialises it to the empty string). -/
structure Dependency where
  name : String
  path : String
  version : String
  packagesDirectory : String
  installedAt : List String
deriving DecidableEq

/-- The test with pattern "dot g i t at end, case-insensitive". -/
def gitSuffixTest (s : String) : Bool :=
  match s.data.reverse with
  | c1 :: c2 :: c3 :: c4 :: _ =>
    (jsLower c1 == 't') && (jsLower c2 == 'i') && (jsLower c3 == 'g') && (c4 == '.')
  | _ => false

def Dependency.hasGitPath (d : Dependency) : Bool :=
  gitSuffixTest d.path

/-- The test with pattern "scheme then nonempty alphanumerics, anchored". -/
def Dependency.hasIPFSPath (d : Dependency) : Bool :=
  startsWithIpfsCI d.path.data &&
  (!(d.path.data.drop 7).isEmpty) && (d.path.data.drop 7).all isAlnumCh

def Dependency.hasVersion (d : Dependency) : Bool := d.version != ""

def Dependency.getName (d : Dependency) : String := d.name

def Dependency.getPath (d : Dependency) : String := d.path

def Dependency.getVersion (d : Dependency) : String := d.version

/-- The display string: path immediately followed by version. -/
def Dependency.toString (d : Dependency) : String :=
  d.getPath ++ d.getVersion

/-- The constructor.  Absent arguments default to the empty string; a git
path together with a falsy version argument throws. -/
def Dependency.make (path version name : Option String) : Except DepErr Dependency :=
  let d : Dependency :=
    ⟨name.getD "", path.getD "", version.getD "", "dapple_packages", []⟩
  if d.hasGitPath && (version.getD "" == "") then .error .missingVersion
  else .ok d

/-- The static parser.  The git form is tried first; otherwise the
generic pattern is executed (crashing with a `typeError` when it fails to
match, as the source then indexes into null), the IPFS shape is tested on
the version or, absent that, the path (with JavaScript coercing two
absent values to the string "undefined"), and the descriptor is built. -/
def fromDependencyString (s : String) (name : Option String) : Except DepErr Dependency :=
  match gitFormExec s.data with
  | some (p, v) => Dependency.make (some (String.mk p)) (some (String.mk v)) name
  | none =>
    match pathRegexExec s.data with
    | none => .error .typeError
    | some (pOpt, vOpt) =>
      let subject : List Char :=
        match vOpt, pOpt with
        | some v, _ => v
        | none, some p => p
        | none, none => "undefined".data
      if ipfsShape subject then
        let name2 : Option String :=
          if name.getD "" == "" then
            (if vOpt.isSome then pOpt.map String.mk else some "")
          else name
        let v2 := stripAtIpfs subject
        Dependency.make (some ("ipfs://" ++ String.mk v2)) (some (String.mk v2)) name2
      else
        Dependency.make (pOpt.map String.mk) (vOpt.map String.mk) name


/-! ## Effects: events, the world oracle, pull and install

Every effectful step of the source is recorded as an event; the outcomes
of the outside world (filesystem probes, child processes, the IPFS
daemon, the manifest reader) are supplied by a `World` oracle.  Paths are
lists of segments, matching the source's `path.join` usage. -/

/-- One effectful step of the source, in execution order. -/
inductive Ev where
  | accessR (p : List String)
  | accessW (p : List String)
  | mkdir (p : List String)
  | emptyDir (p : List String)
  | exec (cmd : String) (cwd : Option (List String))
  | ipfsLs (hash : String)
  | ipfsCat (hash : String)
  | ensureDir (p : List String)
  | writeFile (p : List String) (content : String)
  | readManifest (p : List String)
  | copy (src dst : List String)
  | remove (p : List String)
deriving DecidableEq

/-- One entry of the list returned by listing an IPFS hash: a child hash,
a child name and a numeric type tag (1 directory, 2 file). -/
structure Link where
  Hash : String
  Name : String
  typ : Nat
deriving DecidableEq

/-- Outcomes chosen by the environment.  `ipfsLs`/`ipfsCat` return `none`
when the corresponding call would throw. -/
structure World where
  readable : List String → Bool
  writableDir : Bool
  mkdirPkgOk : Bool
  execOk : String → Option (List String) → Bool
  ipfsLs : String → Option (List Link)
  ipfsCat : String → Option String
  manifestName : String
  copyOk : Bool
  removeOk : Bool
  tmpRoot : String
  tmpToken : String

/-- Errors raised during a pull. -/
inductive PullErr where
  | missingVersion
  | invalidCommit (commit : String)
  | gitExecFailed (cmd : String)
  | ipfsConn
  | lsThrew (hash : String)
  | catThrew (hash : String)
  | unknownType (ty : Nat) (hash : String) (root : String)
  | unrecognized (path : String)
  | noFuel
deriving DecidableEq

/-- Errors raised during an install.  `cleanup` carries the resolved
name, the final install path and the scratch path named in the message. -/
inductive InstallErr where
  | alreadyInstalled (name : String)
  | pathAccess
  | pullFailed (e : PullErr)
  | copyFailed
  | cleanup (name : String) (installedAt : List String) (tmpDir : List String)
deriving DecidableEq

def joinPath (p : List String) : String := String.intercalate "/" p

/-- The git pull: re-check the version, strip a leading at sign, check
the hexadecimal pattern, then run the four git commands in sequence,
stopping at the first failure.  Errors raised before the first command
leave an empty trace: nothing is spawned. -/
def pullGitOp (w : World) (d : Dependency) (target : List String) :
    Except PullErr Unit × List Ev :=
  if d.version == "" then (.error .missingVersion, [])
  else
    let commit := String.mk (stripLeadingAt d.version.data)
    if isHexStr commit.data then
      let c1 := "git clone " ++ d.path ++ " " ++ joinPath target
      let c2 := "git reset --hard " ++ commit
      let c3 := "git submodule init"
      let c4 := "git submodule update"
      if w.execOk c1 none then
        if w.execOk c2 (some target) then
          if w.execOk c3 (some target) then
            if w.execOk c4 (some target) then
              (.ok (), [.exec c1 none, .exec c2 (some target),
                        .exec c3 (some target), .exec c4 (some target)])
            else (.error (.gitExecFailed c4),
                  [.exec c1 none, .exec c2 (some target),
                   .exec c3 (some target), .exec c4 (some target)])
          else (.error (.gitExecFailed c3),
                [.exec c1 none, .exec c2 (some target), .exec c3 (some target)])
        else (.error (.gitExecFailed c2), [.exec c1 none, .exec c2 (some target)])
      else (.error (.gitExecFailed c1), [.exec c1 none])
    else (.error (.invalidCommit commit), [])

/-- Sequential processing of a directory listing: walk each child at the
target path extended by the child's name, stopping at the first error.
The walking function for one node is passed in as `step`. -/
def walkLinks (step : String → List String → Nat → Except PullErr Unit × List Ev) :
    List Link → List String → Except PullErr Unit × List Ev
  | [], _ => (.ok (), [])
  | l :: rest, dest =>
    match step l.Hash (dest ++ [l.Name]) l.typ with
    | (.ok _, evs) =>
      let r := walkLinks step rest dest
      (r.1, evs ++ r.2)
    | (.error e, evs) => (.error e, evs)

/-- The depth-first reconstruction of one node.  A directory node first
creates its target directory, then lists its children and recurses; a
file node reads its content and writes it verbatim; any other type tag
aborts with the unknown-type error naming the offending hash and the
root hash.  `fuel` bounds the recursion depth (the source recurses
unboundedly; every theorem supplies sufficient fuel). -/
def walk (w : World) (root : String) :
    Nat → String → List String → Nat → Except PullErr Unit × List Ev
  | 0, _, _, _ => (.error .noFuel, [])
  | fuel + 1, hash, dest, ty =>
    if ty = 1 then
      match w.ipfsLs hash with
      | none => (.error (.lsThrew hash), [.ensureDir dest, .ipfsLs hash])
      | some links =>
        let r := walkLinks (walk w root fuel) links dest
        (r.1, .ensureDir dest :: .ipfsLs hash :: r.2)
    else if ty = 2 then
      match w.ipfsCat hash with
      | none => (.error (.catThrew hash), [.ipfsCat hash])
      | some c => (.ok (), [.ipfsCat hash, .writeFile dest c])
    else
      (.error (.unknownType ty hash root), [])

/-- The IPFS pull: compute the root hash from the path, probe the
connection by listing it (failing with the connection error, and
performing nothing else, when that throws), then walk the root as a
directory node. -/
def pullIPFSOp (w : World) (fuel : Nat) (d : Dependency) (target : List String) :
    Except PullErr Unit × List Ev :=
  let root := String.mk (stripIpfsScheme d.path.data)
  match w.ipfsLs root with
  | none => (.error .ipfsConn, [.ipfsLs root])
  | some _ =>
    let r := walk w root fuel root target 1
    (r.1, .ipfsLs root :: r.2)

/-- Dispatch on the path's shape, as the source's `pull`. -/
def Dependency.pull (w : World) (fuel : Nat) (d : Dependency) (target : List String) :
    Except PullErr Unit × List Ev :=
  if d.hasGitPath then pullGitOp w d target
  else if d.hasIPFSPath then pullIPFSOp w fuel d target
  else (.error (.unrecognized d.path), [])

/-- The direct branch of the install (name known up front): pull straight
into the final destination and record it on success. -/
def installDirect (w : World) (fuel : Nat) (d : Dependency) (tr : List Ev) :
    Except InstallErr Unit × Dependency × List Ev :=
  let instAt := [d.packagesDirectory, d.name]
  match Dependency.pull w fuel d instAt with
  | (.ok _, evs) => (.ok (), { d with installedAt := instAt }, tr ++ evs)
  | (.error e, evs) => (.error (.pullFailed e), d, tr ++ evs)

/-- The scratch branch of the install (name unknown): create the scratch
directory, pull into it, resolve the name from the manifest, copy to the
final destination, record it, then delete the scratch directory; a
deletion failure raises the cleanup error after the install has already
taken effect. -/
def installScratch (w : World) (fuel : Nat) (d : Dependency) (tr : List Ev) :
    Except InstallErr Unit × Dependency × List Ev :=
  let tmpDir := [w.tmpRoot, "dapple", "packages", w.tmpToken]
  let tr1 := tr ++ [Ev.emptyDir tmpDir]
  match Dependency.pull w fuel d tmpDir with
  | (.error e, evs) => (.error (.pullFailed e), d, tr1 ++ evs)
  | (.ok _, evs) =>
    let d1 := { d with name := w.manifestName }
    let instAt := [d.packagesDirectory, w.manifestName]
    let tr2 := tr1 ++ evs ++ [Ev.readManifest tmpDir, Ev.copy tmpDir instAt]
    if w.copyOk then
      let d2 := { d1 with installedAt := instAt }
      if w.removeOk then (.ok (), d2, tr2 ++ [Ev.remove tmpDir])
      else (.error (.cleanup w.manifestName instAt tmpDir), d2, tr2 ++ [Ev.remove tmpDir])
    else (.error .copyFailed, d1, tr2)

/-- Ensure the packages directory exists (write-access probe, then an
attempted creation), then dispatch on whether the name is known. -/
def installEnsure (w : World) (fuel : Nat) (d : Dependency) (tr : List Ev) :
    Except InstallErr Unit × Dependency × List Ev :=
  let tr1 := tr ++ [Ev.accessW [d.packagesDirectory]]
  if w.writableDir then
    (if d.name == "" then installScratch w fuel d tr1 else installDirect w fuel d tr1)
  else if w.mkdirPkgOk then
    (if d.name == "" then installScratch w fuel d (tr1 ++ [Ev.mkdir [d.packagesDirectory]])
     else installDirect w fuel d (tr1 ++ [Ev.mkdir [d.packagesDirectory]]))
  else (.error .pathAccess, d, tr1 ++ [Ev.mkdir [d.packagesDirectory]])

/-- The install: when a name is known, first probe readability of the
target and fail hard when it is already present; the probe happens before
anything else, in particular before any pull. -/
def Dependency.install (w : World) (fuel : Nat) (d : Dependency) :
    Except InstallErr Unit × Dependency × List Ev :=
  if d.name == "" then installEnsure w fuel d []
  else if w.readable [d.packagesDirectory, d.name] then
    (.error (.alreadyInstalled d.name), d, [.accessR [d.packagesDirectory, d.name]])
  else installEnsure w fuel d [.accessR [d.packagesDirectory, d.name]]

/-! ## Specification trees for the IPFS reconstruction -/

mutual
/-- A well-formed IPFS tree: directories with named children, files with
content. -/
inductive ITree where
  | dir (children : List ChildT) : ITree
  | file (content : String) : ITree

/-- A named child of a directory node. -/
inductive ChildT where
  | mk (nm : String) (tree : ITree) : ChildT
end

/-- The type tag the IPFS listing reports for a node of this shape. -/
def ITree.linkType : ITree → Nat
  | .dir _ => 1
  | .file _ => 2

mutual
/-- Depth of a tree (a file is depth one). -/
def ITree.depth : ITree → Nat
  | .file _ => 1
  | .dir cs => 1 + ChildT.depthList cs

def ChildT.depthList : List ChildT → Nat
  | [] => 0
  | .mk _ t :: rest => max (ITree.depth t) (ChildT.depthList rest)
end

mutual
/-- The filesystem events a faithful reconstruction of the tree at `dest`
performs, in depth-first order: exactly one directory creation per
directory node and one verbatim content write per file node. -/
def canonTree : List String → ITree → List Ev
  | dest, .file c => [Ev.writeFile dest c]
  | dest, .dir cs => Ev.ensureDir dest :: canonChildren dest cs

def canonChildren : List String → List ChildT → List Ev
  | _, [] => []
  | dest, .mk n t :: rest => canonTree (dest ++ [n]) t ++ canonChildren dest rest
end

mutual
/-- Does hash `h` address exactly the tree `t` in world `w`? -/
def repCheck (w : World) : String → ITree → Bool
  | h, .file c => w.ipfsCat h == some c
  | h, .dir cs =>
    match w.ipfsLs h with
    | none => false
    | some links => repChildren w links cs

def repChildren (w : World) : List Link → List ChildT → Bool
  | [], [] => true
  | l :: ls, .mk n t :: cs =>
    (l.Name == n) && (l.typ == ITree.linkType t) &&
    repCheck w l.Hash t && repChildren w ls cs
  | _, _ => false
end

/-- Filesystem-mutating events (directory creations and file writes). -/
def isFsWrite : Ev → Bool
  | .ensureDir _ => true
  | .writeFile _ _ => true
  | _ => false

/-- Events a pull can emit: process spawns, IPFS calls, directory
creations and file writes. -/
def isFetchEv : Ev → Bool
  | .exec _ _ => true
  | .ipfsLs _ => true
  | .ipfsCat _ => true
  | .ensureDir _ => true
  | .writeFile _ _ => true
  | _ => false


/-! ## Concrete worlds, descriptors and trees used by witnesses and
counterexamples -/

/-- Witness for C5: a concrete world in which "pkg" is already present. -/
def wC5 : World :=
  { readable := fun p => p = ["dapple_packages", "pkg"], writableDir := true,
    mkdirPkgOk := true, execOk := fun _ _ => true,
    ipfsLs := fun _ => none, ipfsCat := fun _ => none,
    manifestName := "pkg", copyOk := true, removeOk := true,
    tmpRoot := "tmp", tmpToken := "r" }

def dC5 : Dependency := ⟨"pkg", "ipfs://Qm1", "Qm1", "dapple_packages", []⟩

/-- Scratch-install world whose scratch deletion fails: used to witness
C9. -/
def wC9 : World :=
  { readable := fun _ => false, writableDir := true, mkdirPkgOk := true,
    execOk := fun _ _ => true,
    ipfsLs := fun h => if h = "Qm1" then some [] else none,
    ipfsCat := fun _ => none,
    manifestName := "pkg", copyOk := true, removeOk := false,
    tmpRoot := "tmp", tmpToken := "r" }

def dC9 : Dependency := ⟨"", "ipfs://Qm1", "Qm1", "dapple_packages", []⟩

/-- World for the C3 counterexample and witness: the final destination
"dapple_packages/pkg" is already readable (installed), yet a scratch
install whose manifest resolves to "pkg" proceeds and copies into it. -/
def wC3 : World :=
  { readable := fun p => p = ["dapple_packages", "pkg"], writableDir := true,
    mkdirPkgOk := true, execOk := fun _ _ => true,
    ipfsLs := fun h => if h = "Qm1" then some [] else none,
    ipfsCat := fun _ => none,
    manifestName := "pkg", copyOk := true, removeOk := true,
    tmpRoot := "tmp", tmpToken := "r" }

def dC3 : Dependency := ⟨"", "ipfs://Qm1", "Qm1", "dapple_packages", []⟩

/-- Witness for C6 at the descriptor with source "repo.git" and version
"not-hex!!". -/
def dC6 : Dependency := ⟨"", "repo.git", "not-hex!!", "dapple_packages", []⟩

/-- Witness for C7: a world whose IPFS listing always throws. -/
def wC7 : World :=
  { readable := fun _ => false, writableDir := true, mkdirPkgOk := true,
    execOk := fun _ _ => true,
    ipfsLs := fun _ => none, ipfsCat := fun _ => none,
    manifestName := "pkg", copyOk := true, removeOk := true,
    tmpRoot := "tmp", tmpToken := "r" }

/-- The spec's synthetic tree: a root directory containing a file
"a.txt" with content "X" and a subdirectory "sub" containing a file
"b.txt" with content "Y". -/
def t8 : ITree :=
  .dir [.mk "a.txt" (.file "X"), .mk "sub" (.dir [.mk "b.txt" (.file "Y")])]

/-- World in which hash "Hroot" addresses exactly `t8`. -/
def w8 : World :=
  { readable := fun _ => false, writableDir := true, mkdirPkgOk := true,
    execOk := fun _ _ => true,
    ipfsLs := fun h =>
      if h = "Hroot" then some [⟨"Ha", "a.txt", 2⟩, ⟨"Hsub", "sub", 1⟩]
      else if h = "Hsub" then some [⟨"Hb", "b.txt", 2⟩]
      else none,
    ipfsCat := fun h =>
      if h = "Ha" then some "X" else if h = "Hb" then some "Y" else none,
    manifestName := "pkg", copyOk := true, removeOk := true,
    tmpRoot := "tmp", tmpToken := "r" }

/-- Witness for C10: a world in which the root hash addresses file
content (its cat succeeds) but also lists as an empty directory; the
pull still begins by creating the destination directory and writes
nothing at the destination itself. -/
def wC10 : World :=
  { readable := fun _ => false, writableDir := true, mkdirPkgOk := true,
    execOk := fun _ _ => true,
    ipfsLs := fun h => if h = "Qm2" then some [] else none,
    ipfsCat := fun h => if h = "Qm2" then some "FILE" else none,
    manifestName := "pkg", copyOk := true, removeOk := true,
    tmpRoot := "tmp", tmpToken := "r" }

def dC10 : Dependency := ⟨"", "ipfs://Qm2", "Qm2", "dapple_packages", []⟩

/-! ## Helper lemmas -/

theorem str_append_empty (s : String) : s ++ "" = s := by
  apply String.ext
  simp [String.data_append]

theorem lastAtSplit_eq_none (cs : List Char) (h : ∀ c ∈ cs, c ≠ '@') :
    lastAtSplit cs = none := by
  induction cs with
  | nil => rfl
  | cons c rest ih =>
    have hc : c ≠ '@' := h c (List.mem_cons_self ..)
    have hr := ih (fun x hx => h x (List.mem_cons_of_mem _ hx))
    simp [lastAtSplit, hr, hc]

theorem firstAtSplit_eq_none (cs : List Char) (h : ∀ c ∈ cs, c ≠ '@') :
    firstAtSplit cs = none := by
  induction cs with
  | nil => rfl
  | cons c rest ih =>
    have hc : c ≠ '@' := h c (List.mem_cons_self ..)
    have hr := ih (fun x hx => h x (List.mem_cons_of_mem _ hx))
    simp [firstAtSplit, hr, hc]

theorem make_ok_or_missing (p v n : Option String) :
    (∃ d, Dependency.make p v n = .ok d) ∨
      Dependency.make p v n = .error .missingVersion := by
  simp only [Dependency.make]
  split
  · exact .inr rfl
  · exact .inl ⟨_, rfl⟩

/-! ## Claim C4 -/

/-- C4: constructing a descriptor whose source location ends in the git
suffix (case-insensitively, as the source tests it) while the version
argument is absent or empty always fails with the missing-version error;
such a construction never succeeds. -/
theorem c4_git_needs_version (p : String) (v n : Option String)
    (hgit : gitSuffixTest p = true) (hv : v.getD "" = "") :
    Dependency.make (some p) v n = .error .missingVersion := by
  simp [Dependency.make, Dependency.hasGitPath, hgit, hv]

/-- Witness for C4 at the concrete source location "x.git" with no
version. -/
theorem c4_git_needs_version_witness :
    Dependency.make (some "x.git") none none = .error .missingVersion :=
  c4_git_needs_version "x.git" none none (by decide) rfl

/-! ## Claim C2 -/

/-- C2 counterexample: the input "a#b" matches neither the git form nor
the permissive generic pattern, so the source indexes into the null
result of `exec` and crashes with an unclassified TypeError rather than
returning a descriptor or raising a documented parse error. -/
theorem c2_parse_crash_cex :
    fromDependencyString "a#b" none = .error .typeError := by decide

/-- C2 (amended): for every input string matched by the git form or by
the permissive generic pattern, parsing returns a descriptor or raises
only the documented missing-version error, and the two examples parse as
the claim states; parsing is deterministic since the parser is a pure
function of its input.  (Inputs outside both patterns — a hash mark
before any at sign, or a line terminator after it — crash with an
unclassified TypeError, per the counterexample.) -/
theorem c2_parse_total_amended :
    (∀ (s : String) (n : Option String),
        (gitFormExec s.data).isSome ∨ (pathRegexExec s.data).isSome →
        (∃ d, fromDependencyString s n = .ok d) ∨
          fromDependencyString s n = .error .missingVersion) ∧
    fromDependencyString "path.git@abc123" none =
      .ok ⟨"", "path.git", "abc123", "dapple_packages", []⟩ ∧
    fromDependencyString "@QmXYZ123" none =
      .ok ⟨"", "ipfs://QmXYZ123", "QmXYZ123", "dapple_packages", []⟩ := by
  refine ⟨?_, by decide, by decide⟩
  intro s n h
  unfold fromDependencyString
  cases hg : gitFormExec s.data with
  | some pv =>
    obtain ⟨p, v⟩ := pv
    exact make_ok_or_missing _ _ _
  | none =>
    cases hp : pathRegexExec s.data with
    | none => simp [hg, hp] at h
    | some pv =>
      obtain ⟨pOpt, vOpt⟩ := pv
      simp only
      split
      · exact make_ok_or_missing _ _ _
      · exact make_ok_or_missing _ _ _

/-- Witness for the quantified part of C2 (amended) at the generic input
"mypkg". -/
theorem c2_parse_total_amended_witness :
    (∃ d, fromDependencyString "mypkg" none = .ok d) ∨
      fromDependencyString "mypkg" none = .error .missingVersion :=
  c2_parse_total_amended.1 "mypkg" none (by decide)

/-! ## Claim C1 -/

/-- C1 counterexample: the git-form descriptor parsed from
"a.git@abc123" has display string "a.gitabc123" — the display string
concatenates path and version with no separating at sign — which
reparses to a generic descriptor with path "a.gitabc123" and empty
version, not to the original. -/
theorem c1_roundtrip_cex :
    fromDependencyString "a.git@abc123" none =
      .ok ⟨"", "a.git", "abc123", "dapple_packages", []⟩ ∧
    Dependency.toString ⟨"", "a.git", "abc123", "dapple_packages", []⟩ = "a.gitabc123" ∧
    fromDependencyString "a.gitabc123" none =
      .ok ⟨"", "a.gitabc123", "", "dapple_packages", []⟩ ∧
    (⟨"", "a.gitabc123", "", "dapple_packages", []⟩ : Dependency) ≠
      ⟨"", "a.git", "abc123", "dapple_packages", []⟩ :=
  ⟨by decide, by decide, by decide, by decide⟩

/-- C1 (amended): the display string round-trips exactly for descriptors
parsed from the generic form with no version: when the input has no at
sign and no hash mark, is nonempty, is not an IPFS content hash and does
not end in the git suffix, parsing yields a descriptor with that path
and empty version whose display string reparses to an equal descriptor.
For any descriptor with a nonempty version (the git form in particular)
the display string omits the at sign and does not reparse to the
original, per the counterexample. -/
theorem c1_roundtrip_amended (s : String)
    (h1 : s.data ≠ []) (h2 : ∀ c ∈ s.data, c ≠ '@' ∧ c ≠ '#')
    (h3 : ipfsShape s.data = false)
    (h4 : gitSuffixTest s = false) :
    fromDependencyString s none = .ok ⟨"", s, "", "dapple_packages", []⟩ ∧
    Dependency.toString ⟨"", s, "", "dapple_packages", []⟩ = s ∧
    fromDependencyString (Dependency.toString ⟨"", s, "", "dapple_packages", []⟩) none =
      .ok ⟨"", s, "", "dapple_packages", []⟩ := by
  have hg : gitFormExec s.data = none := by
    rw [gitFormExec, lastAtSplit_eq_none s.data (fun c hc => (h2 c hc).1)]
  have hf : firstAtSplit s.data = none :=
    firstAtSplit_eq_none s.data (fun c hc => (h2 c hc).1)
  have hne : s.data.isEmpty = false := by
    cases hd : s.data with
    | nil => exact absurd hd h1
    | cons a l => rfl
  have hhash : s.data.all (fun c => !(c == '#')) = true := by
    rw [List.all_eq_true]
    intro c hc
    simp [(h2 c hc).2]
  have hp : pathRegexExec s.data = some (some s.data, none) := by
    rw [pathRegexExec, hf]
    simp [hne, hhash]
  have hmk : String.mk s.data = s := by
    cases s
    rfl
  have hparse : fromDependencyString s none = .ok ⟨"", s, "", "dapple_packages", []⟩ := by
    rw [fromDependencyString, hg, hp]
    simp only [h3, Option.map_some, hmk]
    rw [if_neg (by simp [h3])]
    simp [Dependency.make, Dependency.hasGitPath, h4, hmk]
  have hts : Dependency.toString ⟨"", s, "", "dapple_packages", []⟩ = s := by
    simp [Dependency.toString, Dependency.getPath, Dependency.getVersion, str_append_empty]
  refine ⟨hparse, hts, ?_⟩
  rw [hts]
  exact hparse

/-- Witness for C1 (amended) at the concrete generic input "mypkg". -/
theorem c1_roundtrip_amended_witness :
    fromDependencyString "mypkg" none = .ok ⟨"", "mypkg", "", "dapple_packages", []⟩ ∧
    Dependency.toString ⟨"", "mypkg", "", "dapple_packages", []⟩ = "mypkg" ∧
    fromDependencyString (Dependency.toString ⟨"", "mypkg", "", "dapple_packages", []⟩) none =
      .ok ⟨"", "mypkg", "", "dapple_packages", []⟩ :=
  c1_roundtrip_amended "mypkg" (by decide) (by decide) (by decide) (by decide)

/-! ## Claim C5 -/

/-- C5: when the dependency's name is known up front and the target
subdirectory of the packages directory is already readable, the install
fails with the already-installed error, the descriptor is unchanged, and
the whole trace is the single readability probe — in particular no
process spawn, no IPFS call and no filesystem write happens, so the
check precedes any pull. -/
theorem c5_already_installed_no_fetch (w : World) (fuel : Nat) (d : Dependency)
    (hn : d.name ≠ "") (hr : w.readable [d.packagesDirectory, d.name] = true) :
    Dependency.install w fuel d =
      (.error (.alreadyInstalled d.name), d,
        [Ev.accessR [d.packagesDirectory, d.name]]) ∧
    ∀ e ∈ (Dependency.install w fuel d).2.2, isFetchEv e = false := by
  have h1 : Dependency.install w fuel d =
      (.error (.alreadyInstalled d.name), d,
        [Ev.accessR [d.packagesDirectory, d.name]]) := by
    rw [Dependency.install]
    simp [hn, hr]
  refine ⟨h1, ?_⟩
  rw [h1]
  intro e he
  simp only [List.mem_singleton] at he
  subst he
  rfl


theorem c5_already_installed_no_fetch_witness :
    Dependency.install wC5 3 dC5 =
      (.error (.alreadyInstalled "pkg"), dC5,
        [Ev.accessR ["dapple_packages", "pkg"]]) ∧
    ∀ e ∈ (Dependency.install wC5 3 dC5).2.2, isFetchEv e = false :=
  c5_already_installed_no_fetch wC5 3 dC5 (by decide) (by decide)

/-! ## Pull traces contain only fetch events -/

theorem walkLinks_events_fetch
    (step : String → List String → Nat → Except PullErr Unit × List Ev)
    (hstep : ∀ h dest ty e, e ∈ (step h dest ty).2 → isFetchEv e = true) :
    ∀ (links : List Link) (dest : List String) (e : Ev),
      e ∈ (walkLinks step links dest).2 → isFetchEv e = true := by
  intro links
  induction links with
  | nil => intro dest e he; simp [walkLinks] at he
  | cons l rest ih =>
    intro dest e he
    rw [walkLinks] at he
    rcases hs : step l.Hash (dest ++ [l.Name]) l.typ with ⟨r, evs⟩
    rw [hs] at he
    cases r with
    | ok u =>
      simp only [List.mem_append] at he
      rcases he with he | he
      · exact hstep _ _ _ e (by rw [hs]; exact he)
      · exact ih dest e he
    | error err =>
      exact hstep _ _ _ e (by rw [hs]; exact he)

theorem walk_events_fetch (w : World) (root : String) :
    ∀ (fuel : Nat) (hash : String) (dest : List String) (ty : Nat) (e : Ev),
      e ∈ (walk w root fuel hash dest ty).2 → isFetchEv e = true := by
  intro fuel
  induction fuel with
  | zero => intro hash dest ty e he; simp [walk] at he
  | succ n ih =>
    intro hash dest ty e he
    rw [walk] at he
    by_cases h1 : ty = 1
    · rw [if_pos h1] at he
      cases hls : w.ipfsLs hash with
      | none =>
        rw [hls] at he
        simp only [List.mem_cons, List.not_mem_nil, or_false] at he
        rcases he with rfl | rfl <;> rfl
      | some links =>
        rw [hls] at he
        simp only [List.mem_cons] at he
        rcases he with rfl | rfl | he
        · rfl
        · rfl
        · exact walkLinks_events_fetch _ (fun h d t ev hm => ih h d t ev hm) links dest e he
    · rw [if_neg h1] at he
      by_cases h2 : ty = 2
      · rw [if_pos h2] at he
        cases hc : w.ipfsCat hash with
        | none =>
          rw [hc] at he
          simp only [List.mem_singleton] at he
          subst he; rfl
        | some c =>
          rw [hc] at he
          simp only [List.mem_cons, List.not_mem_nil, or_false] at he
          rcases he with rfl | rfl <;> rfl
      · rw [if_neg h2] at he
        simp at he

theorem pullGit_events_fetch (w : World) (d : Dependency) (target : List String) :
    ∀ e ∈ (pullGitOp w d target).2, isFetchEv e = true := by
  intro e he
  simp only [pullGitOp] at he
  split at he
  · exact absurd he (List.not_mem_nil e)
  · split at he
    · split at he
      · split at he
        · split at he
          · split at he
            · simp only [List.mem_cons, List.not_mem_nil, or_false] at he
              rcases he with rfl | rfl | rfl | rfl <;> rfl
            · simp only [List.mem_cons, List.not_mem_nil, or_false] at he
              rcases he with rfl | rfl | rfl | rfl <;> rfl
          · simp only [List.mem_cons, List.not_mem_nil, or_false] at he
            rcases he with rfl | rfl | rfl <;> rfl
        · simp only [List.mem_cons, List.not_mem_nil, or_false] at he
          rcases he with rfl | rfl <;> rfl
      · simp only [List.mem_cons, List.not_mem_nil, or_false] at he
        subst he; rfl
    · exact absurd he (List.not_mem_nil e)

theorem pull_events_fetch (w : World) (fuel : Nat) (d : Dependency)
    (target : List String) :
    ∀ e ∈ (Dependency.pull w fuel d target).2, isFetchEv e = true := by
  intro e he
  rw [Dependency.pull] at he
  by_cases hg : d.hasGitPath
  · rw [if_pos hg] at he
    exact pullGit_events_fetch w d target e he
  · rw [if_neg hg] at he
    by_cases hi : d.hasIPFSPath
    · rw [if_pos hi] at he
      rw [pullIPFSOp] at he
      cases hls : w.ipfsLs (String.mk (stripIpfsScheme d.path.data)) with
      | none =>
        rw [hls] at he
        simp only [List.mem_singleton] at he
        subst he; rfl
      | some links =>
        rw [hls] at he
        simp only [List.mem_cons] at he
        rcases he with rfl | he
        · rfl
        · exact walk_events_fetch w _ fuel _ target 1 e he
    · rw [if_neg hi] at he
      simp at he

/-! ## Claim C9 -/

/-- C9: in a scratch install, if scratch-directory deletion fails after
the copy to the final destination succeeded, the install is not rolled
back: the descriptor's installed-at field is already the final
destination, the resolved name is set, the copy into the final
destination is in the trace, the raised error reports the package as
installed while naming the scratch path, and the only deletion in the
trace is of the scratch directory — nothing removes the installed files. -/
theorem c9_cleanup_failure_not_rolled_back (w : World) (fuel : Nat) (d : Dependency)
    (hn : d.name = "") (hw : w.writableDir = true)
    (hp : (Dependency.pull w fuel d [w.tmpRoot, "dapple", "packages", w.tmpToken]).1 = .ok ())
    (hc : w.copyOk = true) (hrm : w.removeOk = false) :
    (Dependency.install w fuel d).1 =
      .error (.cleanup w.manifestName [d.packagesDirectory, w.manifestName]
        [w.tmpRoot, "dapple", "packages", w.tmpToken]) ∧
    (Dependency.install w fuel d).2.1.installedAt = [d.packagesDirectory, w.manifestName] ∧
    (Dependency.install w fuel d).2.1.name = w.manifestName ∧
    Ev.copy [w.tmpRoot, "dapple", "packages", w.tmpToken]
      [d.packagesDirectory, w.manifestName] ∈ (Dependency.install w fuel d).2.2 ∧
    (∀ p, Ev.remove p ∈ (Dependency.install w fuel d).2.2 →
      p = [w.tmpRoot, "dapple", "packages", w.tmpToken]) := by
  rcases hpull : Dependency.pull w fuel d [w.tmpRoot, "dapple", "packages", w.tmpToken]
    with ⟨r, evs⟩
  rw [hpull] at hp
  dsimp only at hp
  subst hp
  refine ⟨?_, ?_, ?_, ?_, ?_⟩
  · simp [Dependency.install, installEnsure, installScratch, hn, hw, hpull, hc, hrm]
  · simp [Dependency.install, installEnsure, installScratch, hn, hw, hpull, hc, hrm]
  · simp [Dependency.install, installEnsure, installScratch, hn, hw, hpull, hc, hrm]
  · simp [Dependency.install, installEnsure, installScratch, hn, hw, hpull, hc, hrm]
  · intro p hmem
    simp [Dependency.install, installEnsure, installScratch, hn, hw, hpull, hc, hrm] at hmem
    rcases hmem with hmem | hmem
    · have := pull_events_fetch w fuel d [w.tmpRoot, "dapple", "packages", w.tmpToken]
        (Ev.remove p) (by rw [hpull]; exact hmem)
      simp [isFetchEv] at this
    · exact hmem


theorem c9_cleanup_failure_not_rolled_back_witness :
    (Dependency.install wC9 2 dC9).1 =
      .error (.cleanup "pkg" ["dapple_packages", "pkg"] ["tmp", "dapple", "packages", "r"]) ∧
    (Dependency.install wC9 2 dC9).2.1.installedAt = ["dapple_packages", "pkg"] ∧
    (Dependency.install wC9 2 dC9).2.1.name = "pkg" ∧
    Ev.copy ["tmp", "dapple", "packages", "r"] ["dapple_packages", "pkg"] ∈
      (Dependency.install wC9 2 dC9).2.2 ∧
    (∀ p, Ev.remove p ∈ (Dependency.install wC9 2 dC9).2.2 →
      p = ["tmp", "dapple", "packages", "r"]) :=
  c9_cleanup_failure_not_rolled_back wC9 2 dC9 rfl rfl (by decide) rfl rfl

/-! ## Claim C3 -/


/-- C3 counterexample: a dependency with no up-front name whose manifest
resolves to a name that already exists as a subdirectory of the package
directory installs successfully — the content is copied into the
existing subdirectory — instead of failing with the already-installed
error.  The collision check is skipped entirely on the resolved-name
path. -/
theorem c3_collision_merge_cex :
    wC3.readable ["dapple_packages", "pkg"] = true ∧
    (Dependency.install wC3 2 dC3).1 = .ok () ∧
    Ev.copy ["tmp", "dapple", "packages", "r"] ["dapple_packages", "pkg"] ∈
      (Dependency.install wC3 2 dC3).2.2 ∧
    (∀ nm, (Dependency.install wC3 2 dC3).1 ≠ .error (.alreadyInstalled nm)) := by
  refine ⟨by decide, by decide, by decide, ?_⟩
  intro nm h
  rw [show (Dependency.install wC3 2 dC3).1 = .ok () from by decide] at h
  simp at h

/-- C3 (amended): a name collision is a hard already-installed failure
only when the name is known before fetching; when the name is resolved
from the fetched manifest, no collision check occurs and the install
copies the fetched content into the existing subdirectory (a merge) and
reports success. -/
theorem c3_collision_amended :
    (∀ (w : World) (fuel : Nat) (d : Dependency), d.name ≠ "" →
        w.readable [d.packagesDirectory, d.name] = true →
        (Dependency.install w fuel d).1 = .error (.alreadyInstalled d.name)) ∧
    (∀ (w : World) (fuel : Nat) (d : Dependency), d.name = "" →
        w.writableDir = true →
        w.readable [d.packagesDirectory, w.manifestName] = true →
        (Dependency.pull w fuel d [w.tmpRoot, "dapple", "packages", w.tmpToken]).1 = .ok () →
        w.copyOk = true → w.removeOk = true →
        (Dependency.install w fuel d).1 = .ok () ∧
        Ev.copy [w.tmpRoot, "dapple", "packages", w.tmpToken]
          [d.packagesDirectory, w.manifestName] ∈ (Dependency.install w fuel d).2.2) := by
  constructor
  · intro w fuel d hn hr
    rw [Dependency.install]
    simp [hn, hr]
  · intro w fuel d hn hw _ hp hc hrm
    rcases hpull : Dependency.pull w fuel d [w.tmpRoot, "dapple", "packages", w.tmpToken]
      with ⟨r, evs⟩
    rw [hpull] at hp
    dsimp only at hp
    subst hp
    constructor
    · simp [Dependency.install, installEnsure, installScratch, hn, hw, hpull, hc, hrm]
    · simp [Dependency.install, installEnsure, installScratch, hn, hw, hpull, hc, hrm]

/-- Witness for C3 (amended), instantiating both conjuncts: the direct
branch fails on the collision, while the concrete scratch install of
`dC3` in `wC3` succeeds despite the collision. -/
theorem c3_collision_amended_witness :
    (Dependency.install wC3 2 dC5).1 = .error (.alreadyInstalled "pkg") ∧
    ((Dependency.install wC3 2 dC3).1 = .ok () ∧
      Ev.copy ["tmp", "dapple", "packages", "r"] ["dapple_packages", "pkg"] ∈
        (Dependency.install wC3 2 dC3).2.2) :=
  ⟨c3_collision_amended.1 wC3 2 dC5 (by decide) (by decide),
   c3_collision_amended.2 wC3 2 dC3 rfl rfl (by decide) (by decide) rfl rfl⟩

/-! ## Claim C6 -/

/-- C6: for every git-sourced descriptor whose (present) pinned version,
after stripping a leading at sign, is not case-insensitive hexadecimal,
the pull fails with the invalid-commit error and the trace is empty — no
clone, reset or submodule process is spawned. -/
theorem c6_invalid_commit_before_spawn (w : World) (fuel : Nat) (d : Dependency)
    (target : List String) (hg : d.hasGitPath = true) (hv : d.version ≠ "")
    (hx : isHexStr (stripLeadingAt d.version.data) = false) :
    Dependency.pull w fuel d target =
      (.error (.invalidCommit (String.mk (stripLeadingAt d.version.data))), []) ∧
    ∀ cmd cwd, Ev.exec cmd cwd ∉ (Dependency.pull w fuel d target).2 := by
  have h1 : Dependency.pull w fuel d target =
      (.error (.invalidCommit (String.mk (stripLeadingAt d.version.data))), []) := by
    rw [Dependency.pull, if_pos hg, pullGitOp]
    rw [if_neg (by simp [hv])]
    rw [if_neg (by simp [hx])]
  refine ⟨h1, ?_⟩
  rw [h1]
  intro cmd cwd h
  simp at h


theorem c6_invalid_commit_before_spawn_witness :
    Dependency.pull wC3 1 dC6 ["t"] = (.error (.invalidCommit "not-hex!!"), []) ∧
    ∀ cmd cwd, Ev.exec cmd cwd ∉ (Dependency.pull wC3 1 dC6 ["t"]).2 :=
  c6_invalid_commit_before_spawn wC3 1 dC6 ["t"] (by decide) (by decide) (by decide)

/-! ## Claim C7 -/

/-- C7: for every IPFS-sourced descriptor whose connectivity probe (the
initial listing of the root content hash) throws, the fetch fails with
the IPFS connection error, the whole trace is that single listing call,
and in particular the fetch neither creates the destination directory
nor writes any file. -/
theorem c7_ipfs_probe_failure (w : World) (fuel : Nat) (d : Dependency)
    (target : List String) (hg : d.hasGitPath = false) (hi : d.hasIPFSPath = true)
    (hls : w.ipfsLs (String.mk (stripIpfsScheme d.path.data)) = none) :
    Dependency.pull w fuel d target =
      (.error .ipfsConn, [Ev.ipfsLs (String.mk (stripIpfsScheme d.path.data))]) ∧
    (∀ p, Ev.ensureDir p ∉ (Dependency.pull w fuel d target).2) ∧
    (∀ p c, Ev.writeFile p c ∉ (Dependency.pull w fuel d target).2) := by
  have h1 : Dependency.pull w fuel d target =
      (.error .ipfsConn, [Ev.ipfsLs (String.mk (stripIpfsScheme d.path.data))]) := by
    rw [Dependency.pull, if_neg (by simp [hg]), if_pos hi, pullIPFSOp]
    rw [hls]
  refine ⟨h1, ?_, ?_⟩ <;> rw [h1] <;> intro p <;> simp


theorem c7_ipfs_probe_failure_witness :
    Dependency.pull wC7 3 dC3 ["dst"] = (.error .ipfsConn, [Ev.ipfsLs "Qm1"]) ∧
    (∀ p, Ev.ensureDir p ∉ (Dependency.pull wC7 3 dC3 ["dst"]).2) ∧
    (∀ p c, Ev.writeFile p c ∉ (Dependency.pull wC7 3 dC3 ["dst"]).2) :=
  c7_ipfs_probe_failure wC7 3 dC3 ["dst"] (by decide) (by decide) (by decide)

/-! ## Claim C8 -/

theorem depth_pos (t : ITree) : 0 < ITree.depth t := by
  cases t <;> simp [ITree.depth]

/-- C8: over any world, (a) for every well-formed tree addressed by a
hash — directory nodes listing named, typed children and file nodes with
content — walking that hash with the tree's own type tag and enough fuel
succeeds, and the filesystem events of the walk are exactly the
canonical depth-first reconstruction of the tree at the destination: one
directory creation per directory node, one verbatim content write at
target extended by the child name per file node, and nothing else;
(b) any node whose type tag is neither the directory tag nor the file
tag aborts the walk immediately with the unknown-type error identifying
the offending hash and the root hash. -/
theorem c8_ipfs_reconstruction (w : World) (root : String) :
    (∀ (fuel : Nat) (t : ITree) (hash : String) (dest : List String),
        repCheck w hash t = true → ITree.depth t ≤ fuel →
        (walk w root fuel hash dest t.linkType).1 = .ok () ∧
        ((walk w root fuel hash dest t.linkType).2.filter isFsWrite) = canonTree dest t) ∧
    (∀ (fuel ty : Nat) (hash : String) (dest : List String), ty ≠ 1 → ty ≠ 2 →
        walk w root (fuel + 1) hash dest ty =
          (.error (.unknownType ty hash root), [])) := by
  constructor
  · intro fuel
    induction fuel with
    | zero =>
      intro t hash dest _ hd
      exact absurd (Nat.lt_of_lt_of_le (depth_pos t) hd) (by omega)
    | succ n ih =>
      intro t hash dest hrep hd
      cases t with
      | file c =>
        have hc : w.ipfsCat hash = some c := by
          simpa [repCheck] using hrep
        constructor
        · simp [walk, ITree.linkType, hc]
        · simp [walk, ITree.linkType, hc, canonTree, isFsWrite]
      | dir cs =>
        have haux : ∀ (links : List Link) (cs' : List ChildT) (dest' : List String),
            repChildren w links cs' = true → ChildT.depthList cs' ≤ n →
            (walkLinks (walk w root n) links dest').1 = .ok () ∧
            ((walkLinks (walk w root n) links dest').2.filter isFsWrite) =
              canonChildren dest' cs' := by
          intro links
          induction links with
          | nil =>
            intro cs' dest' hrc _
            cases cs' with
            | nil => simp [walkLinks, canonChildren]
            | cons c0 cs0 => simp [repChildren] at hrc
          | cons l rest ihl =>
            intro cs' dest' hrc hdl
            cases cs' with
            | nil => simp [repChildren] at hrc
            | cons ch cs0 =>
              obtain ⟨nm, t⟩ := ch
              simp only [repChildren, Bool.and_eq_true, beq_iff_eq] at hrc
              obtain ⟨⟨⟨hnm, hty⟩, hrt⟩, hrest⟩ := hrc
              rw [ChildT.depthList, Nat.max_le] at hdl
              obtain ⟨hdt, hdr⟩ := hdl
              have hstep := ih t l.Hash (dest' ++ [nm]) hrt hdt
              rw [walkLinks, hnm, hty]
              rcases hw : walk w root n l.Hash (dest' ++ [nm]) t.linkType with ⟨r, evs⟩
              rw [hw] at hstep
              dsimp only at hstep
              obtain ⟨hr1, hr2⟩ := hstep
              subst hr1
              obtain ⟨hl1, hl2⟩ := ihl cs0 dest' hrest hdr
              constructor
              · simpa using hl1
              · simp [List.filter_append, hr2, hl2, canonChildren]
        have hls : ∃ links, w.ipfsLs hash = some links ∧ repChildren w links cs = true := by
          rw [repCheck] at hrep
          cases hq : w.ipfsLs hash with
          | none => rw [hq] at hrep; cases hrep
          | some links => rw [hq] at hrep; exact ⟨links, rfl, hrep⟩
        obtain ⟨links, hq, hrc⟩ := hls
        have hdl : ChildT.depthList cs ≤ n := by
          rw [ITree.depth] at hd
          omega
        obtain ⟨ha1, ha2⟩ := haux links cs dest hrc hdl
        constructor
        · simp [walk, ITree.linkType, hq, ha1]
        · simp [walk, ITree.linkType, hq, List.filter, isFsWrite, ha2, canonTree]
  · intro fuel ty hash dest h1 h2
    rw [walk, if_neg h1, if_neg h2]


/-- Witness for C8 on the synthetic tree, plus an unknown-type abort at
tag 7. -/
theorem c8_ipfs_reconstruction_witness :
    ((walk w8 "Hroot" 3 "Hroot" ["root"] (ITree.linkType t8)).1 = .ok () ∧
      ((walk w8 "Hroot" 3 "Hroot" ["root"] (ITree.linkType t8)).2.filter isFsWrite) =
        canonTree ["root"] t8) ∧
    walk w8 "Hroot" 1 "HX" ["dst"] 7 = (.error (.unknownType 7 "HX" "Hroot"), []) :=
  ⟨(c8_ipfs_reconstruction w8 "Hroot").1 3 t8 "Hroot" ["root"] (by decide) (by decide),
   (c8_ipfs_reconstruction w8 "Hroot").2 0 7 "HX" ["dst"] (by decide) (by decide)⟩

/-! ## Claim C10 -/

theorem walkLinks_writes
    (step : String → List String → Nat → Except PullErr Unit × List Ev)
    (hstep : ∀ h dest ty p c, Ev.writeFile p c ∈ (step h dest ty).2 →
      dest.length ≤ p.length) :
    ∀ (links : List Link) (dest : List String) (p : List String) (c : String),
      Ev.writeFile p c ∈ (walkLinks step links dest).2 → dest.length < p.length := by
  intro links
  induction links with
  | nil => intro dest p c h; simp [walkLinks] at h
  | cons l rest ih =>
    intro dest p c h
    rw [walkLinks] at h
    rcases hs : step l.Hash (dest ++ [l.Name]) l.typ with ⟨r, evs⟩
    rw [hs] at h
    have frombase : Ev.writeFile p c ∈ evs → dest.length < p.length := by
      intro hm
      have := hstep l.Hash (dest ++ [l.Name]) l.typ p c (by rw [hs]; exact hm)
      simp at this
      omega
    cases r with
    | ok u =>
      simp only [List.mem_append] at h
      rcases h with h | h
      · exact frombase h
      · exact ih dest p c h
    | error err => exact frombase h

theorem walk_writes (w : World) (root : String) :
    ∀ (fuel : Nat) (hash : String) (dest : List String) (ty : Nat)
      (p : List String) (c : String),
      Ev.writeFile p c ∈ (walk w root fuel hash dest ty).2 →
      dest.length ≤ p.length ∧ (ty = 1 → dest.length < p.length) := by
  intro fuel
  induction fuel with
  | zero => intro hash dest ty p c h; simp [walk] at h
  | succ n ih =>
    intro hash dest ty p c h
    rw [walk] at h
    by_cases h1 : ty = 1
    · rw [if_pos h1] at h
      cases hls : w.ipfsLs hash with
      | none =>
        rw [hls] at h
        simp at h
      | some links =>
        rw [hls] at h
        simp only [List.mem_cons] at h
        rcases h with h | h | h
        · cases h
        · cases h
        · have := walkLinks_writes (walk w root n)
            (fun hh dd tt pp cc hm => (ih hh dd tt pp cc hm).1) links dest p c h
          exact ⟨Nat.le_of_lt this, fun _ => this⟩
    · rw [if_neg h1] at h
      by_cases h2 : ty = 2
      · rw [if_pos h2] at h
        cases hc : w.ipfsCat hash with
        | none => rw [hc] at h; simp at h
        | some c0 =>
          rw [hc] at h
          simp only [List.mem_cons, List.not_mem_nil, or_false] at h
          rcases h with h | h
          · cases h
          · obtain ⟨hp, hcc⟩ := Ev.writeFile.inj h
            subst hp
            exact ⟨Nat.le_refl _, fun hty => (h1 hty).elim⟩
      · rw [if_neg h2] at h
        simp at h

/-- C10: every successful IPFS pull treats the root content hash
unconditionally as a directory node: the first filesystem event is the
creation of the destination directory (the walk starts in the directory
branch, listing the root's children), and no content is ever written to
the destination path itself — a root hash that actually addresses file
content is never written as a file. -/
theorem c10_ipfs_root_treated_as_dir (w : World) (fuel : Nat) (d : Dependency)
    (target : List String)
    (hok : (pullIPFSOp w fuel d target).1 = .ok ()) :
    ((pullIPFSOp w fuel d target).2.filter isFsWrite).head? =
      some (Ev.ensureDir target) ∧
    ∀ c, Ev.writeFile target c ∉ (pullIPFSOp w fuel d target).2 := by
  rw [pullIPFSOp] at hok ⊢
  cases hls : w.ipfsLs (String.mk (stripIpfsScheme d.path.data)) with
  | none => rw [hls] at hok; cases hok
  | some links =>
    rw [hls] at hok
    dsimp only at hok ⊢
    cases fuel with
    | zero => rw [walk] at hok; cases hok
    | succ n =>
      constructor
      · rw [walk, if_pos rfl]
        cases hq : w.ipfsLs (String.mk (stripIpfsScheme d.path.data)) with
        | none => simp [isFsWrite]
        | some links2 => simp [isFsWrite]
      · intro c hmem
        simp only [List.mem_cons] at hmem
        rcases hmem with hmem | hmem
        · cases hmem
        · have := walk_writes w (String.mk (stripIpfsScheme d.path.data)) (n + 1)
            (String.mk (stripIpfsScheme d.path.data)) target 1 target c hmem
          have hlt := this.2 rfl
          omega


theorem c10_ipfs_root_treated_as_dir_witness :
    ((pullIPFSOp wC10 2 dC10 ["dst"]).2.filter isFsWrite).head? =
      some (Ev.ensureDir ["dst"]) ∧
    ∀ c, Ev.writeFile ["dst"] c ∉ (pullIPFSOp wC10 2 dC10 ["dst"]).2 :=
  c10_ipfs_root_treated_as_dir wC10 2 dC10 ["dst"] (by decide)
